import Mathlib

/-!
Verification of the Swift-Bank asynchronous task subsystem specification
and of the `UpdateUser` gRPC handler.

The task subsystem (Broker / Distributor / Processor, package `worker`)
is referenced by `main.go` but its own source is not part of the checked
tree, so the Broker, the Processor dispatch loop and the backoff policy
are modelled from the specification (each such definition says so in its
doc comment).  The `UpdateUser` handler is embedded directly from
`gapi/rpc_update_user.go`.
-/

namespace SwiftBank

/-- Modelled from the spec: task lifecycle states (§3 `state`:
`pending`, `scheduled`, `active`, `retry`, `completed`, `dead`). -/
inductive TaskState where
  | pending
  | scheduled
  | active
  | retry
  | completed
  | dead
deriving DecidableEq, Repr

/-- Modelled from the spec: the Task Envelope as stored by the Broker
(§3 data model): id, type, payload, queue, retry ceiling and counter,
earliest eligibility time, optional uniqueness key with its TTL deadline,
lease expiry and lifecycle state.  Times are naturals. -/
structure Task where
  id : Nat
  taskType : String
  payload : List Nat
  queue : String
  max_retry : Nat
  retry_count : Nat
  process_at : Nat
  unique_key : Option String
  uniq_deadline : Nat
  lease_deadline : Nat
  last_error : Option String
  state : TaskState
deriving DecidableEq, Repr

/-- Modelled from the spec: the envelope handed to `Enqueue`
(§4.2 option set: queue, max retry, process-at, unique key + TTL). -/
structure Envelope where
  taskType : String
  payload : List Nat
  queue : String
  max_retry : Nat
  process_at : Nat
  unique_key : Option String
  uniq_ttl : Nat
deriving DecidableEq, Repr

/-- Modelled from the spec: Broker state — a clock, the id generator and
the collection of stored tasks (completed tasks are removed, dead tasks
are archived in place with state `dead`). -/
structure Broker where
  now : Nat
  nextId : Nat
  tasks : List Task
deriving DecidableEq, Repr

/-- Modelled from the spec: the only enqueue-time error (§7). -/
inductive BrokerErr where
  | DuplicateTask
deriving DecidableEq, Repr

/-- Look a task up by id. -/
def findTask (b : Broker) (id : Nat) : Option Task :=
  b.tasks.find? (fun t => t.id == id)

/-- Modelled from the spec: a task occupies the pending, scheduled or
in-flight (active) sets — the states in which a `unique_key` collision
is still live (§3 `unique_key`; a `retry` task sits in the scheduled
set per §4.1 `Retry`). -/
def liveState (s : TaskState) : Bool :=
  match s with
  | .pending => true
  | .scheduled => true
  | .active => true
  | .retry => true
  | .completed => false
  | .dead => false

/-- Modelled from the spec: eligibility for claiming (§4.1 `Dequeue`):
pending tasks, or scheduled/retry tasks whose `process_at` has passed. -/
def eligible (now : Nat) (t : Task) : Bool :=
  match t.state with
  | .pending => true
  | .scheduled => t.process_at ≤ now
  | .retry => t.process_at ≤ now
  | .active => false
  | .completed => false
  | .dead => false

/-- Modelled from the spec: `unique_key` collision test (§4.1 `Enqueue`,
§3 `unique_key`): some stored task has the same `(type, unique_key)`
pair, is still pending/in-flight/scheduled, and its TTL window has not
elapsed. -/
def collides (b : Broker) (ty : String) (k : String) : Bool :=
  b.tasks.any (fun t =>
    t.taskType == ty && t.unique_key == some k && liveState t.state
      && b.now < t.uniq_deadline)

/-- Modelled from the spec: the stored task built by a successful
`Enqueue` (§4.1): fresh id, `retry_count` 0, state `pending` when
`process_at` has already passed, else `scheduled`; the uniqueness
deadline is now + TTL. -/
def mkTask (b : Broker) (e : Envelope) : Task :=
  { id := b.nextId
    taskType := e.taskType
    payload := e.payload
    queue := e.queue
    max_retry := e.max_retry
    retry_count := 0
    process_at := e.process_at
    unique_key := e.unique_key
    uniq_deadline := b.now + e.uniq_ttl
    lease_deadline := 0
    last_error := none
    state := if e.process_at ≤ b.now then .pending else .scheduled }

/-- Modelled from the spec: successful insertion performed by `Enqueue`. -/
def enqueueInsert (b : Broker) (e : Envelope) : Broker :=
  { b with nextId := b.nextId + 1, tasks := b.tasks ++ [mkTask b e] }

/-- Modelled from the spec: `Enqueue(envelope)` (§4.1) — fails with
`DuplicateTask` if the unique key collides within its TTL window,
otherwise inserts and returns the assigned id. -/
def enqueue (b : Broker) (e : Envelope) : Except BrokerErr (Nat × Broker) :=
  match e.unique_key with
  | some k =>
      if collides b e.taskType k then .error .DuplicateTask
      else .ok (b.nextId, enqueueInsert b e)
  | none => .ok (b.nextId, enqueueInsert b e)

/-- Modelled from the spec: the tasks of queue `q` currently eligible
for claiming. -/
def eligibleIn (b : Broker) (q : String) : List Task :=
  b.tasks.filter (fun t => t.queue == q && eligible b.now t)

/-- Modelled from the spec: the ids `Dequeue` claims — up to `count`
eligible tasks across the given queues in priority order (§4.1). -/
def dequeueIds (b : Broker) (qs : List String) (count : Nat) : List Nat :=
  (((qs.map (eligibleIn b)).flatten).take count).map Task.id

/-- Modelled from the spec: marking a claimed task `active` with a
lease expiry. -/
def claimTask (now leaseDur : Nat) (ids : List Nat) (t : Task) : Task :=
  if t.id ∈ ids then { t with state := .active, lease_deadline := now + leaseDur }
  else t

/-- Modelled from the spec: `Dequeue(queueNames, count)` (§4.1) — one
atomic step that claims the eligible tasks, sets them `active` with a
lease, and returns their ids.  Concurrent callers serialize through
this atomic step (§5 shared-resource discipline). -/
def dequeue (b : Broker) (qs : List String) (count leaseDur : Nat) :
    List Nat × Broker :=
  let ids := dequeueIds b qs count
  (ids, { b with tasks := b.tasks.map (claimTask b.now leaseDur ids) })

/-- Modelled from the spec: `Ack(id)` (§4.1) — marks the task completed
and removes it from all sets; a no-op (never an error) when the id is
absent, which is what makes it idempotent. -/
def ack (b : Broker) (id : Nat) : Broker :=
  { b with tasks := b.tasks.filter (fun t => !(t.id == id)) }

/-- Modelled from the spec: the effect of `Retry` on the stored task
(§4.1, §8): a task already at its retry ceiling moves to the dead set
(so `retry_count` never exceeds `max_retry`); otherwise the counter is
incremented and the task is reinserted into the scheduled set with
`process_at = now + delay` and state `retry`. -/
def retryTask (now delay : Nat) (err : String) (t : Task) : Task :=
  if t.max_retry ≤ t.retry_count then
    { t with state := .dead, last_error := some err }
  else
    { t with state := .retry
             retry_count := t.retry_count + 1
             process_at := now + delay
             last_error := some err }

/-- Modelled from the spec: `Retry(id, delay, error)` (§4.1), applied to
the currently leased (active) task with that id. -/
def retryOp (b : Broker) (id : Nat) (delay : Nat) (err : String) : Broker :=
  { b with tasks := b.tasks.map (fun t =>
      if t.id == id && t.state == TaskState.active
      then retryTask b.now delay err t else t) }

/-- Modelled from the spec: moving a claimed task straight to the dead
set (used by the Processor for permanent failures, §4.3 / §7
`NoHandlerRegistered`). -/
def deadLetter (b : Broker) (id : Nat) (err : String) : Broker :=
  { b with tasks := b.tasks.map (fun t =>
      if t.id == id && t.state == TaskState.active
      then { t with state := .dead, last_error := some err } else t) }

/-- Modelled from the spec: `ReapExpiredLeases()` (§4.1) — active tasks
whose lease has expired return to pending. -/
def reap (b : Broker) : Broker :=
  { b with tasks := b.tasks.map (fun t =>
      if t.state == TaskState.active && t.lease_deadline ≤ b.now
      then { t with state := .pending } else t) }

/-- Advance the Broker clock. -/
def tick (b : Broker) (dt : Nat) : Broker :=
  { b with now := b.now + dt }

/-- Modelled from the spec: the atomic Broker operations (§4.1) plus
clock advance; concurrency is interleaving of these atomic steps (§5). -/
inductive BOp where
  | enq (e : Envelope)
  | deq (qs : List String) (count leaseDur : Nat)
  | ackOp (id : Nat)
  | retryStep (id delay : Nat) (err : String)
  | deadOp (id : Nat) (err : String)
  | reapOp
  | tickOp (dt : Nat)
deriving Repr

/-- The Broker state after one atomic operation. -/
def applyOp (op : BOp) (b : Broker) : Broker :=
  match op with
  | .enq e => match enqueue b e with
      | .ok (_, b2) => b2
      | .error _ => b
  | .deq qs count leaseDur => (dequeue b qs count leaseDur).2
  | .ackOp id => ack b id
  | .retryStep id delay err => retryOp b id delay err
  | .deadOp id err => deadLetter b id err
  | .reapOp => reap b
  | .tickOp dt => tick b dt

/-- The invariant of §3: no task has `retry_count` exceeding its
`max_retry`. -/
def RetryBound (b : Broker) : Prop :=
  ∀ t ∈ b.tasks, t.retry_count ≤ t.max_retry

/-- Modelled from the spec: the backoff policy with jitter disabled
(§4.3): `delay = base * 2 ^ retry_count`, capped at a maximum delay. -/
def backoff (base cap : Nat) (n : Nat) : Nat :=
  min (base * 2 ^ n) cap

/-- Modelled from the spec: a handler receives the payload and reports
success or a descriptive failure (§6 handler contract). -/
def Handler : Type := List Nat → Except String Unit

/-- Modelled from the spec: the Handler Registry (§4.4) — a map from
task-type identifiers to handlers; `register` prepends so that the
latest registration for a type wins on lookup. -/
def Registry : Type := List (String × Handler)

/-- Modelled from the spec: `Register(taskType, handlerFn)` (§4.4),
last write wins. -/
def register (ty : String) (h : Handler) (reg : Registry) : Registry :=
  (ty, h) :: reg

/-- Modelled from the spec: how the Processor handles one claimed
task (§4.3): no registered handler → immediate dead-letter with no
retry; handler success → `Ack`; handler failure →
`Retry(id, backoff(retry_count), error)`.  The second component counts
handler executions (0 or 1). -/
def processClaimed (reg : Registry) (base cap : Nat) (b : Broker)
    (t : Task) : Broker × Nat :=
  match reg.lookup t.taskType with
  | none => (deadLetter b t.id "no handler registered", 0)
  | some h =>
      match h t.payload with
      | .ok _ => (ack b t.id, 1)
      | .error e => (retryOp b t.id (backoff base cap t.retry_count) e, 1)

/-- Modelled from the spec: one worker iteration (§4.3 `Start()` loop):
let time pass, claim one eligible task from the given queues, dispatch
it; returns the new Broker state and the number of handler executions
performed (0 when nothing was claimable). -/
def workerStep (reg : Registry) (base cap tickBy leaseDur : Nat)
    (qs : List String) (b : Broker) : Broker × Nat :=
  let b1 := tick b tickBy
  let r := dequeue b1 qs 1 leaseDur
  match r.1 with
  | [] => (r.2, 0)
  | id :: _ =>
      match findTask r.2 id with
      | none => (r.2, 0)
      | some t => processClaimed reg base cap r.2 t

/-- Modelled from the spec: run the worker loop for `fuel` iterations,
accumulating the total number of handler executions. -/
def runWorker (reg : Registry) (base cap tickBy leaseDur : Nat)
    (qs : List String) : Nat → Broker → Broker × Nat
  | 0, b => (b, 0)
  | fuel + 1, b =>
      let r := workerStep reg base cap tickBy leaseDur qs b
      let rest := runWorker reg base cap tickBy leaseDur qs fuel r.1
      (rest.1, r.2 + rest.2)

/-- Broker well-formedness: stored task ids are pairwise distinct and
below the id generator (§3 `id`: unique identifier, generated at
creation). -/
def WF (b : Broker) : Prop :=
  (b.tasks.map Task.id).Nodup ∧ ∀ t ∈ b.tasks, t.id < b.nextId

/-- The spec-side statement of a `unique_key` collision, written from
the words of §3/§4.1: some stored task with the same `(type,
unique_key)` pair is still pending/in-flight/scheduled and its TTL
window has not elapsed. -/
def SpecCollision (b : Broker) (e : Envelope) : Prop :=
  ∃ k, e.unique_key = some k ∧
    ∃ t ∈ b.tasks, t.taskType = e.taskType ∧ t.unique_key = some k ∧
      liveState t.state = true ∧ b.now < t.uniq_deadline

/-- The end-to-end scenario of §8: the `email:verify` task with payload
`userID = 42` and `max_retry = 3`. -/
def mailEnvelope : Envelope :=
  { taskType := "email:verify", payload := [42], queue := "default",
    max_retry := 3, process_at := 0, unique_key := none, uniq_ttl := 0 }

/-- The empty Broker. -/
def emptyBroker : Broker := { now := 0, nextId := 0, tasks := [] }

/-- The Broker holding exactly the freshly enqueued scenario task. -/
def mailBroker : Broker := enqueueInsert emptyBroker mailEnvelope

/-- A registry whose only handler, for `email:verify`, always fails. -/
def failReg : Registry :=
  register "email:verify" (fun _ => .error "smtp down") []

end SwiftBank

namespace Gapi

/-- `sql.NullString`: a string together with its validity flag; an
invalid value marks the field as not-to-update. -/
structure NullString where
  string : String
  valid : Bool
deriving DecidableEq, Repr

/-- `sql.NullTime` with time as a natural number. -/
structure NullTime where
  time : Nat
  valid : Bool
deriving DecidableEq, Repr

/-- The fields of `pb.UpdateUserRequest`: `username` is required, the
other three are optional (proto3 optional pointer fields). -/
structure UpdateUserRequest where
  username : String
  fullName : Option String
  email : Option String
  password : Option String
deriving DecidableEq, Repr

/-- `models.UpdateUserParams` as built by the handler. -/
structure UpdateUserParams where
  userName : String
  fullName : NullString
  email : NullString
  hashedPassword : NullString
  passwordChangedAt : NullTime
deriving DecidableEq, Repr

/-- The token payload returned by `authorizeUser`. -/
structure AuthPayload where
  userName : String
deriving DecidableEq, Repr

/-- The gRPC status codes the handler can return before reaching the
service layer. -/
inductive GrpcCode where
  | Unauthenticated
  | InvalidArgument
  | PermissionDenied
  | Internal
deriving DecidableEq, Repr

/-- Validators of the `val` package (its source is outside the checked
tree, so they stay abstract): each returns `some message` on a
violation, `none` on success. -/
structure Validators where
  validateUsername : String → Option String
  validatePassword : String → Option String
  validateFullName : String → Option String
  validateEmail : String → Option String

/-- `validateUpdateUserRequest` from `gapi/rpc_update_user.go`: the
username is always validated; password, full name and email only when
present in the request. -/
def validateUpdateUserRequest (v : Validators) (req : UpdateUserRequest) :
    List (String × String) :=
  (match v.validateUsername req.username with
   | some e => [("username", e)]
   | none => []) ++
  (match req.password with
   | some pw =>
       match v.validatePassword pw with
       | some e => [("password", e)]
       | none => []
   | none => []) ++
  (match req.fullName with
   | some fn =>
       match v.validateFullName fn with
       | some e => [("full_name", e)]
       | none => []
   | none => []) ++
  (match req.email with
   | some em =>
       match v.validateEmail em with
       | some e => [("email", e)]
       | none => []
   | none => [])

/-- How far the handler gets: an early error return, or the invocation
of `service.UpdateUser` with the built parameters (the service layer is
outside the checked tree, so the embedding stops at the call). -/
inductive UpdateUserOutcome where
  | fail (code : GrpcCode)
  | callService (arg : UpdateUserParams)
deriving DecidableEq, Repr

/-- The update parameters as first built by the handler (lines 33–43 of
`gapi/rpc_update_user.go`): full name and email carry `valid :=
req.X != nil`; the password fields start at their zero values. -/
def buildParams (req : UpdateUserRequest) : UpdateUserParams :=
  { userName := req.username
    fullName := { string := req.fullName.getD "",
                  valid := req.fullName.isSome }
    email := { string := req.email.getD "",
               valid := req.email.isSome }
    hashedPassword := { string := "", valid := false }
    passwordChangedAt := { time := 0, valid := false } }

/-- The `UpdateUser` handler from `gapi/rpc_update_user.go`: authorize,
validate, reject updates to other users, then build the update
parameters — optional request fields yield `valid := false` parameters,
and a supplied password is hashed and stamps `passwordChangedAt` with
the current time.  `auth` is the outcome of `authorizeUser` and
`hashPassword` abstracts `helpers.HashPassword` (both outside the
checked tree). -/
def updateUser (auth : Except String AuthPayload) (v : Validators)
    (hashPassword : String → Except String String) (now : Nat)
    (req : UpdateUserRequest) : UpdateUserOutcome :=
  match auth with
  | .error _ => .fail .Unauthenticated
  | .ok authPayload =>
    match validateUpdateUserRequest v req with
    | _ :: _ => .fail .InvalidArgument
    | [] =>
      if authPayload.userName ≠ req.username then .fail .PermissionDenied
      else
        match req.password with
        | none => .callService (buildParams req)
        | some pw =>
          match hashPassword pw with
          | .error _ => .fail .Internal
          | .ok hp =>
              .callService { buildParams req with
                hashedPassword := { string := hp, valid := true }
                passwordChangedAt := { time := now, valid := true } }

/-- Validators that accept every input, for concrete witnesses. -/
def trivialValidators : Validators :=
  { validateUsername := fun _ => none
    validatePassword := fun _ => none
    validateFullName := fun _ => none
    validateEmail := fun _ => none }

/-- A hash function that always succeeds, for concrete witnesses. -/
def okHash : String → Except String String := fun s => .ok s

/-- A request naming a user other than the authenticated one. -/
def reqOther : UpdateUserRequest :=
  { username := "bob", fullName := none, email := none, password := none }

/-- A request by the authenticated user updating name and password but
not email. -/
def reqSample : UpdateUserRequest :=
  { username := "alice", fullName := some "Alice L", email := none,
    password := some "secret12" }

end Gapi

namespace SwiftBank

/-- An envelope carrying a uniqueness key, for exercising the dedupe
behaviour. -/
def keyedEnvelope : Envelope :=
  { mailEnvelope with unique_key := some "X", uniq_ttl := 60 }

/-- A concrete task currently leased by a worker. -/
def activeTask : Task :=
  { id := 0, taskType := "email:verify", payload := [42],
    queue := "default", max_retry := 3, retry_count := 1, process_at := 0,
    unique_key := none, uniq_deadline := 0, lease_deadline := 30,
    last_error := none, state := .active }

/-- A concrete Broker holding exactly `activeTask`. -/
def activeBroker : Broker := { now := 5, nextId := 1, tasks := [activeTask] }

lemma findTask_spec {b : Broker} {id : Nat} {t : Task}
    (h : findTask b id = some t) : t ∈ b.tasks ∧ t.id = id := by
  refine ⟨List.mem_of_find?_eq_some h, ?_⟩
  have h2 := List.find?_some h
  simpa using h2

lemma findTask_map_eq (l : List Task) (f : Task → Task)
    (hf : ∀ t, (f t).id = t.id) (id : Nat) :
    (l.map f).find? (fun t => t.id == id)
      = (l.find? (fun t => t.id == id)).map f := by
  have hp : ((fun t => t.id == id) ∘ f) = (fun t : Task => t.id == id) := by
    funext t
    simp [Function.comp, hf]
  rw [List.find?_map, hp]

lemma nodup_id_inj {l : List Task} (hn : (l.map Task.id).Nodup)
    {a b : Task} (ha : a ∈ l) (hb : b ∈ l) (h : a.id = b.id) : a = b :=
  List.inj_on_of_nodup_map hn ha hb h

lemma mem_dequeueIds {b : Broker} {qs : List String} {n : Nat} {x : Nat}
    (h : x ∈ dequeueIds b qs n) :
    ∃ t, t ∈ b.tasks ∧ eligible b.now t = true ∧ t.id = x := by
  unfold dequeueIds at h
  rw [List.mem_map] at h
  obtain ⟨t, ht, rfl⟩ := h
  have ht2 : t ∈ (qs.map (eligibleIn b)).flatten := List.take_subset _ _ ht
  rw [List.mem_flatten] at ht2
  obtain ⟨s, hs, hts⟩ := ht2
  rw [List.mem_map] at hs
  obtain ⟨q, _, rfl⟩ := hs
  unfold eligibleIn at hts
  rw [List.mem_filter] at hts
  obtain ⟨hmem, hcond⟩ := hts
  rw [Bool.and_eq_true] at hcond
  exact ⟨t, hmem, hcond.2, rfl⟩

lemma eligible_of_dead {now : Nat} {t : Task} (h : t.state = .dead) :
    eligible now t = false := by
  unfold eligible
  rw [h]

lemma eligible_of_active {now : Nat} {t : Task} (h : t.state = .active) :
    eligible now t = false := by
  unfold eligible
  rw [h]

lemma dead_notin_dequeueIds {b : Broker} (hn : (b.tasks.map Task.id).Nodup)
    {id : Nat} {t : Task} (hf : findTask b id = some t)
    (hd : t.state = .dead) (qs : List String) (n : Nat) :
    id ∉ dequeueIds b qs n := by
  intro hmem
  obtain ⟨t1, h1, helig, hid⟩ := mem_dequeueIds hmem
  obtain ⟨hmemt, hidt⟩ := findTask_spec hf
  have : t1 = t := nodup_id_inj hn h1 hmemt (by rw [hid, hidt])
  rw [this, eligible_of_dead hd] at helig
  exact Bool.false_ne_true helig

/-- C4: `Broker.Ack` is idempotent — acknowledging a task id a second
time leaves the Broker state unchanged (and, the operation being total,
it returns no error). -/
theorem ack_idempotent (b : Broker) (id : Nat) :
    ack (ack b id) id = ack b id := by
  unfold ack
  simp [List.filter_filter]

/-- C5: with jitter disabled, the backoff delay is monotone
non-decreasing in the retry count below the retry ceiling, and it never
exceeds the configured cap. -/
theorem backoff_monotone_capped (base cap maxR n : Nat) (h : n < maxR) :
    backoff base cap n ≤ backoff base cap (n + 1) ∧
      backoff base cap n ≤ cap := by
  unfold backoff
  constructor
  · exact min_le_min
      (Nat.mul_le_mul_left base (Nat.pow_le_pow_right (by omega) (by omega)))
      (Nat.le_refl cap)
  · exact Nat.min_le_right _ _

/-- Witness for C5 at `base = 1`, `cap = 10`, `maxR = 3`, `n = 0`. -/
theorem backoff_monotone_capped_witness :
    backoff 1 10 0 ≤ backoff 1 10 1 ∧ backoff 1 10 0 ≤ 10 :=
  backoff_monotone_capped 1 10 3 0 (by decide)

end SwiftBank

namespace SwiftBank

lemma enqueue_eq_none {b : Broker} {e : Envelope}
    (hk : e.unique_key = none) :
    enqueue b e = .ok (b.nextId, enqueueInsert b e) := by
  unfold enqueue
  rw [hk]

lemma enqueue_eq_some {b : Broker} {e : Envelope} {k : String}
    (hk : e.unique_key = some k) :
    enqueue b e = if collides b e.taskType k
      then .error .DuplicateTask
      else .ok (b.nextId, enqueueInsert b e) := by
  unfold enqueue
  rw [hk]

lemma collides_iff (b : Broker) (e : Envelope) (k : String)
    (hk : e.unique_key = some k) :
    collides b e.taskType k = true ↔ SpecCollision b e := by
  unfold collides SpecCollision
  rw [List.any_eq_true]
  constructor
  · rintro ⟨t, ht, hcond⟩
    simp only [Bool.and_eq_true, beq_iff_eq, decide_eq_true_eq] at hcond
    exact ⟨k, hk, t, ht, hcond.1.1.1, hcond.1.1.2, hcond.1.2, hcond.2⟩
  · rintro ⟨k2, hk2, t, ht, h1, h2, h3, h4⟩
    rw [hk] at hk2
    obtain rfl : k = k2 := Option.some.inj hk2
    refine ⟨t, ht, ?_⟩
    simp only [Bool.and_eq_true, beq_iff_eq, decide_eq_true_eq]
    exact ⟨⟨⟨h1, h2⟩, h3⟩, h4⟩

/-- C2: two `Dequeue` calls that serialize through the atomic claim
step return disjoint task-id sets — an id claimed by the first call is
`active` afterwards, hence ineligible for the second call. -/
theorem dequeue_no_double_claim (b : Broker) (qs1 qs2 : List String)
    (n1 n2 ld1 ld2 : Nat) (x : Nat)
    (h1 : x ∈ (dequeue b qs1 n1 ld1).1) :
    x ∉ (dequeue (dequeue b qs1 n1 ld1).2 qs2 n2 ld2).1 := by
  intro h2
  simp only [dequeue] at h1 h2
  obtain ⟨u, hu, helig, hx⟩ := mem_dequeueIds h2
  simp only [List.mem_map] at hu
  obtain ⟨t, ht, rfl⟩ := hu
  by_cases hc : t.id ∈ dequeueIds b qs1 n1
  · have hstate : (claimTask b.now ld1 (dequeueIds b qs1 n1) t).state
        = TaskState.active := by
      simp [claimTask, hc]
    rw [eligible_of_active hstate] at helig
    exact Bool.false_ne_true helig
  · rw [claimTask, if_neg hc] at hx helig
    rw [hx] at hc
    exact hc h1

/-- Witness for C2: the freshly enqueued scenario task is claimed by
the first call and not by the second. -/
theorem dequeue_no_double_claim_witness :
    0 ∈ (dequeue mailBroker ["default"] 1 30).1 ∧
      0 ∉ (dequeue (dequeue mailBroker ["default"] 1 30).2
            ["default"] 1 30).1 :=
  ⟨by decide,
   dequeue_no_double_claim mailBroker ["default"] ["default"] 1 1 30 30 0
     (by decide)⟩

/-- C3: `Enqueue` fails with `DuplicateTask` exactly when some stored
task with the same `(type, unique_key)` pair is still
pending/in-flight/scheduled inside its TTL window; in every other case
(TTL elapsed, task completed and removed, or no key) the enqueue
succeeds and assigns the next id. -/
theorem enqueue_dedupe (b : Broker) (e : Envelope) :
    (enqueue b e = .error .DuplicateTask ↔ SpecCollision b e) ∧
      (¬ SpecCollision b e →
        enqueue b e = .ok (b.nextId, enqueueInsert b e)) := by
  cases hk : e.unique_key with
  | none =>
      rw [enqueue_eq_none hk]
      refine ⟨⟨fun h => (nomatch h), fun h => ?_⟩, fun _ => rfl⟩
      obtain ⟨k, hk2, _⟩ := h
      rw [hk] at hk2
      cases hk2
  | some k =>
      rw [enqueue_eq_some hk]
      by_cases hcol : collides b e.taskType k
      · rw [if_pos hcol]
        exact ⟨⟨fun _ => (collides_iff b e k hk).mp hcol, fun _ => rfl⟩,
          fun h => absurd ((collides_iff b e k hk).mp hcol) h⟩
      · rw [if_neg hcol]
        refine ⟨⟨fun h => (nomatch h), fun h => ?_⟩, fun _ => rfl⟩
        exact absurd ((collides_iff b e k hk).mpr h) hcol

/-- Witness for C3: enqueueing the keyed envelope into the empty Broker
succeeds. -/
theorem enqueue_dedupe_witness :
    enqueue emptyBroker keyedEnvelope
      = .ok (0, enqueueInsert emptyBroker keyedEnvelope) :=
  (enqueue_dedupe emptyBroker keyedEnvelope).2
    (by simp [SpecCollision, emptyBroker])

end SwiftBank

namespace SwiftBank

lemma deadLetter_preserves_id (b : Broker) (id : Nat) (err : String) :
    ∀ t : Task, ((fun t : Task =>
      if t.id == id && t.state == TaskState.active
      then { t with state := .dead, last_error := some err } else t) t).id
        = t.id := by
  intro t
  dsimp only []
  split <;> rfl

/-- C6: a claimed task whose type has no registered handler is moved
directly to the dead state: the handler-execution count is 0 (no retry
attempt is made) and the stored task ends up `dead` with its
`retry_count` untouched, whatever its relation to `max_retry`. -/
theorem no_handler_immediate_dead (reg : Registry) (base cap : Nat)
    (b : Broker) (t : Task)
    (hf : findTask b t.id = some t) (hact : t.state = .active)
    (hno : reg.lookup t.taskType = none) :
    (processClaimed reg base cap b t).2 = 0 ∧
      ∃ u, findTask (processClaimed reg base cap b t).1 t.id = some u ∧
        u.state = .dead ∧ u.retry_count = t.retry_count := by
  unfold processClaimed
  rw [hno]
  refine ⟨rfl, ?_⟩
  unfold deadLetter findTask
  rw [findTask_map_eq _ _ (deadLetter_preserves_id b t.id "no handler registered")]
  unfold findTask at hf
  rw [hf]
  have hc : (t.id == t.id && t.state == TaskState.active) = true := by
    simp [hact]
  refine ⟨_, rfl, ?_, ?_⟩ <;> simp [hc, hact]

/-- Witness for C6 at the concrete active task and the empty registry. -/
theorem no_handler_immediate_dead_witness :
    (processClaimed [] 1 100 activeBroker activeTask).2 = 0 ∧
      ∃ u, findTask (processClaimed [] 1 100 activeBroker activeTask).1
          activeTask.id = some u ∧
        u.state = .dead ∧ u.retry_count = activeTask.retry_count :=
  no_handler_immediate_dead [] 1 100 activeBroker activeTask
    (by decide) (by decide) rfl

lemma retryOp_preserves_id (b : Broker) (id delay : Nat) (err : String) :
    ∀ t : Task, ((fun t : Task =>
      if t.id == id && t.state == TaskState.active
      then retryTask b.now delay err t else t) t).id = t.id := by
  intro t
  dsimp only []
  split
  · unfold retryTask
    split <;> rfl
  · rfl

/-- C8: a successful `Retry` of a claimed task reschedules it at
`now + delay`, which is never earlier than its previous eligibility
time, and strictly later whenever the backoff delay is positive. -/
theorem retry_process_at_monotone (b : Broker) (id delay : Nat)
    (err : String) (t : Task)
    (hf : findTask b id = some t) (hact : t.state = .active)
    (hp : t.process_at ≤ b.now) (hr : t.retry_count < t.max_retry) :
    ∃ u, findTask (retryOp b id delay err) id = some u ∧
      u.process_at = b.now + delay ∧
      t.process_at ≤ u.process_at ∧
      (0 < delay → t.process_at < u.process_at) ∧
      u.state = .retry := by
  have hid : t.id = id := (findTask_spec hf).2
  unfold retryOp findTask
  rw [findTask_map_eq _ _ (retryOp_preserves_id b id delay err)]
  unfold findTask at hf
  rw [hf]
  have hc : (t.id == id && t.state == TaskState.active) = true := by
    simp [hid, hact]
  have hnotceil : ¬ t.max_retry ≤ t.retry_count := by omega
  refine ⟨_, rfl, ?_, ?_, ?_, ?_⟩ <;>
    simp [hc, retryTask, hnotceil] <;> omega

/-- Witness for C8 at the concrete active task, with delay 7. -/
theorem retry_process_at_monotone_witness :
    ∃ u, findTask (retryOp activeBroker 0 7 "smtp down") 0 = some u ∧
      u.process_at = activeBroker.now + 7 ∧
      activeTask.process_at ≤ u.process_at ∧
      (0 < 7 → activeTask.process_at < u.process_at) ∧
      u.state = .retry :=
  retry_process_at_monotone activeBroker 0 7 "smtp down" activeTask
    (by decide) (by decide) (by decide) (by decide)

end SwiftBank

namespace SwiftBank

/-- C7: the end-to-end scenario of §8 — the `email:verify` task with
`max_retry = 3` and an always-failing handler is executed exactly 4
times (1 initial attempt + 3 retries) over a 10-iteration worker run,
ends `dead` with `retry_count = 3`, and 10 further iterations deliver
it to no worker (0 executions). -/
theorem mail_task_four_attempts_then_dead :
    (runWorker failReg 1 100 200 50 ["default"] 10 mailBroker).2 = 4 ∧
      (findTask (runWorker failReg 1 100 200 50 ["default"] 10
          mailBroker).1 0).map Task.state = some TaskState.dead ∧
      (findTask (runWorker failReg 1 100 200 50 ["default"] 10
          mailBroker).1 0).map Task.retry_count = some 3 ∧
      (runWorker failReg 1 100 200 50 ["default"] 10
        (runWorker failReg 1 100 200 50 ["default"] 10 mailBroker).1).2
        = 0 :=
  ⟨rfl, rfl, rfl, rfl⟩

end SwiftBank

namespace SwiftBank

lemma enqueue_ok_inv {b : Broker} {e : Envelope} {n : Nat} {b2 : Broker}
    (h : enqueue b e = .ok (n, b2)) : b2 = enqueueInsert b e := by
  cases hk : e.unique_key with
  | none =>
      rw [enqueue_eq_none hk] at h
      simp only [Except.ok.injEq, Prod.mk.injEq] at h
      exact h.2.symm
  | some k =>
      rw [enqueue_eq_some hk] at h
      split at h
      · exact nomatch h
      · simp only [Except.ok.injEq, Prod.mk.injEq] at h
        exact h.2.symm

lemma claim_preserves_id (now ld : Nat) (ids : List Nat) :
    ∀ t : Task, (claimTask now ld ids t).id = t.id := by
  intro t
  unfold claimTask
  split <;> rfl

lemma reap_preserves_id (b : Broker) :
    ∀ t : Task, ((fun t : Task =>
      if t.state == TaskState.active && t.lease_deadline ≤ b.now
      then { t with state := .pending } else t) t).id = t.id := by
  intro t
  dsimp only []
  split <;> rfl

lemma retryBound_enqueueInsert {b : Broker} (e : Envelope)
    (hb : RetryBound b) : RetryBound (enqueueInsert b e) := by
  intro t ht
  simp only [enqueueInsert, List.mem_append, List.mem_singleton] at ht
  rcases ht with ht | rfl
  · exact hb t ht
  · simp [mkTask]

lemma retryBound_applyOp (op : BOp) (b : Broker) (hb : RetryBound b) :
    RetryBound (applyOp op b) := by
  cases op with
  | enq e =>
      simp only [applyOp]
      split
      · rename_i n b2 heq
        rw [enqueue_ok_inv heq]
        exact retryBound_enqueueInsert e hb
      · exact hb
  | deq qs n ld =>
      simp only [applyOp, dequeue]
      intro u hu
      simp only [List.mem_map] at hu
      obtain ⟨t, ht, rfl⟩ := hu
      have hbt := hb t ht
      unfold claimTask
      split <;> simpa using hbt
  | ackOp id =>
      simp only [applyOp, ack]
      intro t ht
      exact hb t (List.mem_filter.mp ht).1
  | retryStep id delay err =>
      simp only [applyOp, retryOp]
      intro u hu
      simp only [List.mem_map] at hu
      obtain ⟨t, ht, rfl⟩ := hu
      have hbt := hb t ht
      split
      · unfold retryTask
        split
        · simpa using hbt
        · rename_i hlt
          simp only []
          omega
      · exact hbt
  | deadOp id err =>
      simp only [applyOp, deadLetter]
      intro u hu
      simp only [List.mem_map] at hu
      obtain ⟨t, ht, rfl⟩ := hu
      have hbt := hb t ht
      split <;> simpa using hbt
  | reapOp =>
      simp only [applyOp, reap]
      intro u hu
      simp only [List.mem_map] at hu
      obtain ⟨t, ht, rfl⟩ := hu
      have hbt := hb t ht
      split <;> simpa using hbt
  | tickOp dt =>
      exact hb

end SwiftBank

namespace SwiftBank

lemma wf_map_tasks {l : List Task} {nid : Nat} (f : Task → Task)
    (hf : ∀ t, (f t).id = t.id)
    (hn : (l.map Task.id).Nodup) (hfr : ∀ t ∈ l, t.id < nid) :
    ((l.map f).map Task.id).Nodup ∧ ∀ t ∈ l.map f, t.id < nid := by
  constructor
  · rw [List.map_map]
    have he : (Task.id ∘ f) = Task.id := funext hf
    rw [he]
    exact hn
  · intro u hu
    rw [List.mem_map] at hu
    obtain ⟨t, ht, rfl⟩ := hu
    rw [hf]
    exact hfr t ht

lemma wf_enqueueInsert {b : Broker} (e : Envelope) (hwf : WF b) :
    WF (enqueueInsert b e) := by
  obtain ⟨hn, hfr⟩ := hwf
  constructor
  · simp only [enqueueInsert, List.map_append, List.map_cons, List.map_nil]
    rw [List.nodup_append]
    refine ⟨hn, List.nodup_singleton _, ?_⟩
    intro a ha hmem
    simp only [List.mem_singleton, mkTask] at hmem
    rw [List.mem_map] at ha
    obtain ⟨t, ht, rfl⟩ := ha
    have := hfr t ht
    omega
  · intro t ht
    simp only [enqueueInsert, List.mem_append, List.mem_singleton] at ht
    simp only [enqueueInsert]
    rcases ht with ht | rfl
    · have := hfr t ht
      omega
    · simp only [mkTask]
      omega

lemma wf_applyOp (op : BOp) (b : Broker) (hwf : WF b) :
    WF (applyOp op b) := by
  obtain ⟨hn, hfr⟩ := hwf
  cases op with
  | enq e =>
      simp only [applyOp]
      split
      · rename_i n b2 heq
        rw [enqueue_ok_inv heq]
        exact wf_enqueueInsert e ⟨hn, hfr⟩
      · exact ⟨hn, hfr⟩
  | deq qs n ld =>
      simp only [applyOp, dequeue]
      exact wf_map_tasks _ (claim_preserves_id b.now ld _) hn hfr
  | ackOp id =>
      simp only [applyOp, ack]
      constructor
      · exact ((List.filter_sublist _).map Task.id).nodup hn
      · intro t ht
        exact hfr t (List.mem_filter.mp ht).1
  | retryStep id delay err =>
      simp only [applyOp, retryOp]
      exact wf_map_tasks _ (retryOp_preserves_id b id delay err) hn hfr
  | deadOp id err =>
      simp only [applyOp, deadLetter]
      exact wf_map_tasks _ (deadLetter_preserves_id b id err) hn hfr
  | reapOp =>
      simp only [applyOp, reap]
      exact wf_map_tasks _ (reap_preserves_id b) hn hfr
  | tickOp dt =>
      exact ⟨hn, hfr⟩

end SwiftBank


namespace SwiftBank

lemma dead_preserved (op : BOp) (b : Broker)
    (hn : (b.tasks.map Task.id).Nodup)
    {id : Nat} {t : Task} (hf : findTask b id = some t)
    (hd : t.state = .dead) :
    ∀ u, findTask (applyOp op b) id = some u → u.state = .dead := by
  have hspec := findTask_spec hf
  have hf2 : b.tasks.find? (fun x => x.id == id) = some t := hf
  intro u hu
  cases op with
  | enq e =>
      simp only [applyOp] at hu
      split at hu
      · rename_i n b2 heq
        rw [enqueue_ok_inv heq] at hu
        have hu2 : (b.tasks ++ [mkTask b e]).find? (fun x => x.id == id)
            = some u := hu
        rw [List.find?_append, hf2] at hu2
        rw [← Option.some.inj hu2]
        exact hd
      · have hu2 : findTask b id = some u := hu
        rw [hf] at hu2
        rw [← Option.some.inj hu2]
        exact hd
  | deq qs n ld =>
      have hu2 : (b.tasks.map
          (claimTask b.now ld (dequeueIds b qs n))).find?
          (fun x => x.id == id) = some u := hu
      rw [findTask_map_eq _ _ (claim_preserves_id b.now ld _), hf2] at hu2
      rw [← Option.some.inj hu2]
      have hnin : t.id ∉ dequeueIds b qs n := by
        rw [hspec.2]
        exact dead_notin_dequeueIds hn hf hd qs n
      unfold claimTask
      rw [if_neg hnin]
      exact hd
  | ackOp id2 =>
      have hu2 : (b.tasks.filter (fun x => !(x.id == id2))).find?
          (fun x => x.id == id) = some u := hu
      have hmemu := List.mem_of_find?_eq_some hu2
      have hpu := List.find?_some hu2
      rw [List.mem_filter] at hmemu
      have hidu : u.id = id := by simpa using hpu
      have heq : u = t := nodup_id_inj hn hmemu.1 hspec.1
        (by rw [hidu, hspec.2])
      rw [heq]
      exact hd
  | retryStep id2 delay err =>
      have hu2 : (b.tasks.map (fun x : Task =>
          if x.id == id2 && x.state == TaskState.active
          then retryTask b.now delay err x else x)).find?
          (fun x => x.id == id) = some u := hu
      rw [findTask_map_eq _ _ (retryOp_preserves_id b id2 delay err),
        hf2] at hu2
      rw [← Option.some.inj hu2]
      have hcond : (t.id == id2 && t.state == TaskState.active) = false := by
        simp [hd]
      simp [hcond, hd]
  | deadOp id2 err =>
      have hu2 : (b.tasks.map (fun x : Task =>
          if x.id == id2 && x.state == TaskState.active
          then { x with state := .dead, last_error := some err }
          else x)).find? (fun x => x.id == id) = some u := hu
      rw [findTask_map_eq _ _ (deadLetter_preserves_id b id2 err),
        hf2] at hu2
      rw [← Option.some.inj hu2]
      have hcond : (t.id == id2 && t.state == TaskState.active) = false := by
        simp [hd]
      simp [hcond, hd]
  | reapOp =>
      have hu2 : (b.tasks.map (fun x : Task =>
          if x.state == TaskState.active && x.lease_deadline ≤ b.now
          then { x with state := .pending } else x)).find?
          (fun x => x.id == id) = some u := hu
      rw [findTask_map_eq _ _ (reap_preserves_id b), hf2] at hu2
      rw [← Option.some.inj hu2]
      have hcond : (t.state == TaskState.active
          && decide (t.lease_deadline ≤ b.now)) = false := by
        simp [hd]
      simp [hcond, hd]
  | tickOp dt =>
      have hu2 : findTask b id = some u := hu
      rw [hf] at hu2
      rw [← Option.some.inj hu2]
      exact hd

lemma retry_ceiling_dead (b : Broker) {id : Nat} {t : Task}
    (hf : findTask b id = some t) (hact : t.state = .active)
    (hceil : t.max_retry ≤ t.retry_count) (delay : Nat) (err : String) :
    ∀ u, findTask (retryOp b id delay err) id = some u →
      u.state = .dead := by
  intro u hu
  have hspec := findTask_spec hf
  have hu2 : (b.tasks.map (fun x : Task =>
      if x.id == id && x.state == TaskState.active
      then retryTask b.now delay err x else x)).find?
      (fun x => x.id == id) = some u := hu
  rw [findTask_map_eq _ _ (retryOp_preserves_id b id delay err)] at hu2
  have hf2 : b.tasks.find? (fun x => x.id == id) = some t := hf
  rw [hf2] at hu2
  rw [← Option.some.inj hu2]
  have hc : (t.id == id && t.state == TaskState.active) = true := by
    simp [hspec.2, hact]
  simp [hc, hact, retryTask, hceil, hspec.2]

end SwiftBank

namespace SwiftBank

/-- C1: under the well-formedness and retry-bound invariants, every
atomic Broker operation preserves both (so `retry_count` never exceeds
`max_retry`); invoking `Retry` on a claimed task whose `retry_count`
already equals `max_retry` leaves it `dead`, not `retry`; a dead task
stays dead under every operation and its id is never returned by
`Dequeue`. -/
theorem retry_count_bounded_dead_terminal (b : Broker) (op : BOp)
    (hwf : WF b) (hb : RetryBound b) :
    RetryBound (applyOp op b) ∧ WF (applyOp op b) ∧
      (∀ id t, findTask b id = some t → t.state = .dead →
        ∀ u, findTask (applyOp op b) id = some u → u.state = .dead) ∧
      (∀ id delay err t, findTask b id = some t → t.state = .active →
        t.retry_count = t.max_retry →
        ∀ u, findTask (retryOp b id delay err) id = some u →
          u.state = .dead ∧ u.state ≠ .retry) ∧
      (∀ id t qs n ld, findTask b id = some t → t.state = .dead →
        id ∉ (dequeue b qs n ld).1) := by
  refine ⟨retryBound_applyOp op b hb, wf_applyOp op b hwf,
    fun id t hf hd => dead_preserved op b hwf.1 hf hd,
    fun id delay err t hf ha hc u hu => ?_,
    fun id t qs n ld hf hd hmem => ?_⟩
  · have hdu := retry_ceiling_dead b hf ha (by omega) delay err u hu
    exact ⟨hdu, by rw [hdu]; exact fun h => nomatch h⟩
  · have hid : t.id = id := (findTask_spec hf).2
    have hnin := dead_notin_dequeueIds hwf.1 hf hd qs n
    exact hnin hmem

/-- Witness for C1 at the concrete one-task Broker and the `Ack 0`
operation. -/
theorem retry_count_bounded_dead_terminal_witness :
    RetryBound (applyOp (.ackOp 0) activeBroker) ∧
      WF (applyOp (.ackOp 0) activeBroker) ∧
      (∀ id t, findTask activeBroker id = some t → t.state = .dead →
        ∀ u, findTask (applyOp (.ackOp 0) activeBroker) id = some u →
          u.state = .dead) ∧
      (∀ id delay err t, findTask activeBroker id = some t →
        t.state = .active → t.retry_count = t.max_retry →
        ∀ u, findTask (retryOp activeBroker id delay err) id = some u →
          u.state = .dead ∧ u.state ≠ .retry) ∧
      (∀ id t qs n ld, findTask activeBroker id = some t →
        t.state = .dead → id ∉ (dequeue activeBroker qs n ld).1) :=
  retry_count_bounded_dead_terminal activeBroker (.ackOp 0)
    (by unfold WF; constructor <;> decide)
    (by unfold RetryBound; decide)

end SwiftBank

namespace Gapi

lemma updateUser_invalid {ap : AuthPayload} {v : Validators}
    {hash : String → Except String String} {now : Nat}
    {req : UpdateUserRequest} {a : String × String}
    {as : List (String × String)}
    (hv : validateUpdateUserRequest v req = a :: as) :
    updateUser (.ok ap) v hash now req = .fail .InvalidArgument := by
  unfold updateUser
  rw [hv]

lemma updateUser_valid_eq {ap : AuthPayload} {v : Validators}
    {hash : String → Except String String} {now : Nat}
    {req : UpdateUserRequest}
    (hv : validateUpdateUserRequest v req = []) :
    updateUser (.ok ap) v hash now req =
      if ap.userName ≠ req.username then .fail .PermissionDenied
      else
        match req.password with
        | none => .callService (buildParams req)
        | some pw =>
          match hash pw with
          | .error _ => .fail .Internal
          | .ok hp =>
              .callService { buildParams req with
                hashedPassword := { string := hp, valid := true }
                passwordChangedAt := { time := now, valid := true } } := by
  unfold updateUser
  rw [hv]

lemma updateUser_valid_nopass {ap : AuthPayload} {v : Validators}
    {hash : String → Except String String} {now : Nat}
    {req : UpdateUserRequest}
    (hv : validateUpdateUserRequest v req = [])
    (hp : req.password = none) :
    updateUser (.ok ap) v hash now req =
      if ap.userName ≠ req.username then .fail .PermissionDenied
      else .callService (buildParams req) := by
  unfold updateUser
  rw [hv, hp]

lemma updateUser_valid_pass {ap : AuthPayload} {v : Validators}
    {hash : String → Except String String} {now : Nat}
    {req : UpdateUserRequest} {pw hp2 : String}
    (hv : validateUpdateUserRequest v req = [])
    (hp : req.password = some pw) (hh : hash pw = .ok hp2) :
    updateUser (.ok ap) v hash now req =
      if ap.userName ≠ req.username then .fail .PermissionDenied
      else .callService { buildParams req with
        hashedPassword := { string := hp2, valid := true }
        passwordChangedAt := { time := now, valid := true } } := by
  unfold updateUser
  rw [hv, hp]
  simp only [hh]

/-- C9: when the authenticated username differs from the request
username, the handler never invokes `service.UpdateUser` (so no stored
record is touched), and — provided the request passes validation, the
earlier gate in the handler — it returns `PermissionDenied`. -/
theorem update_user_permission_denied (ap : AuthPayload) (v : Validators)
    (hash : String → Except String String) (now : Nat)
    (req : UpdateUserRequest) (hdiff : ap.userName ≠ req.username) :
    (validateUpdateUserRequest v req = [] →
      updateUser (.ok ap) v hash now req = .fail .PermissionDenied) ∧
      ∀ arg, updateUser (.ok ap) v hash now req ≠ .callService arg := by
  constructor
  · intro hval
    rw [updateUser_valid_eq hval, if_pos hdiff]
  · intro arg
    cases hv : validateUpdateUserRequest v req with
    | cons a as =>
        rw [updateUser_invalid hv]
        exact fun h => nomatch h
    | nil =>
        rw [updateUser_valid_eq hv, if_pos hdiff]
        exact fun h => nomatch h

/-- Witness for C9: token for alice, request for bob. -/
theorem update_user_permission_denied_witness :
    updateUser (.ok ⟨"alice"⟩) trivialValidators okHash 0 reqOther
      = .fail .PermissionDenied ∧
      ∀ arg, updateUser (.ok ⟨"alice"⟩) trivialValidators okHash 0 reqOther
        ≠ .callService arg :=
  ⟨(update_user_permission_denied ⟨"alice"⟩ trivialValidators okHash 0
      reqOther (by decide)).1 rfl,
   (update_user_permission_denied ⟨"alice"⟩ trivialValidators okHash 0
      reqOther (by decide)).2⟩

/-- C10: on the path reaching the service call, the built update
parameters mark each absent optional field invalid (so the stored value
is kept) and carry `passwordChangedAt = now` exactly when a password
was supplied. -/
theorem update_user_frame (ap : AuthPayload) (v : Validators)
    (hash : String → Except String String) (now : Nat)
    (req : UpdateUserRequest)
    (hval : validateUpdateUserRequest v req = [])
    (hsame : ap.userName = req.username)
    (hhash : ∀ pw, req.password = some pw → ∃ hp, hash pw = .ok hp) :
    ∃ arg, updateUser (.ok ap) v hash now req = .callService arg ∧
      arg.userName = req.username ∧
      arg.fullName.valid = req.fullName.isSome ∧
      arg.email.valid = req.email.isSome ∧
      arg.hashedPassword.valid = req.password.isSome ∧
      arg.passwordChangedAt.valid = req.password.isSome ∧
      (∀ pw, req.password = some pw → arg.passwordChangedAt.time = now) ∧
      (req.password = none → arg.passwordChangedAt.time = 0) := by
  have hne : ¬ ap.userName ≠ req.username := by
    rw [hsame]
    exact fun h => h rfl
  cases hp : req.password with
  | none =>
      rw [updateUser_valid_nopass hval hp, if_neg hne]
      refine ⟨buildParams req, rfl, rfl, rfl, rfl, rfl, rfl, ?_, ?_⟩
      · intro pw2 hpw
        exact nomatch hpw
      · intro _
        rfl
  | some pw =>
      obtain ⟨hp2, hh⟩ := hhash pw hp
      rw [updateUser_valid_pass hval hp hh, if_neg hne]
      refine ⟨_, rfl, rfl, rfl, rfl, rfl, rfl, ?_, ?_⟩
      · intro pw2 hpw
        rfl
      · intro hnone
        exact nomatch hnone

/-- Witness for C10: alice updates her own name and password. -/
theorem update_user_frame_witness :
    ∃ arg, updateUser (.ok ⟨"alice"⟩) trivialValidators okHash 7 reqSample
        = .callService arg ∧
      arg.userName = reqSample.username ∧
      arg.fullName.valid = reqSample.fullName.isSome ∧
      arg.email.valid = reqSample.email.isSome ∧
      arg.hashedPassword.valid = reqSample.password.isSome ∧
      arg.passwordChangedAt.valid = reqSample.password.isSome ∧
      (∀ pw, reqSample.password = some pw →
        arg.passwordChangedAt.time = 7) ∧
      (reqSample.password = none → arg.passwordChangedAt.time = 0) :=
  update_user_frame ⟨"alice"⟩ trivialValidators okHash 7 reqSample
    rfl rfl (fun pw _ => ⟨pw, rfl⟩)

end Gapi
